import Mathlib

/-!
Verification of the NewsTracker feed-aggregation engine.

This file gives a shallow embedding of the parts of the repository that the
verified properties are about:

* `news/storage/repository.py`: `normalize`, `classify_news_status`,
  `add_news_batch`, `get_news_by_topic`, `mark_read`, the `NewsItem` record
  and the title-keyed store (a Python dict, embedded as an association list
  with Python dict semantics: lookup and in-place update of the first
  binding, append for a fresh key, deletion of the binding).
* `news/tracker/news_tracker.py`: the `NewsTracker` class with its per-topic
  maps (`feeds`, `all_news`, `seen_links`, `last_fetched`, `lsh_index`,
  `minhashes`), `add_topic`, `update_topic`, `update_all`, `get_all_news`,
  `get_last_news` and the memory pruning.
* `news/api/main.py`: the `remove_topic` endpoint.

Python strings are embedded as Lean `String`; the Python character
predicates `str.isspace`, `str.isalnum`, `str.lower`, `str.strip`,
`str.split` and string comparison are embedded for the ASCII fragment,
character by character, below.  Timestamps are embedded as integers counting
seconds (the `datetime` arithmetic of the source is exact, so only the two
thresholds, 30 minutes and 6 hours, matter).  `datetime.fromisoformat` is an
external parser; the embedding abstracts it as an arbitrary parameter
`parse : String → Option Int` (`none` models a raised `ValueError`).  The
`datasketch` MinHash/LSH pair is likewise external: a signature is embedded
as the token list it is built from, and the index query is an arbitrary
boolean parameter, so every theorem below holds for every possible
behaviour of the approximate index.
-/

/-- ASCII fragment of Python `str.isspace` applied to one character. -/
def pyIsSpace (c : Char) : Bool :=
  c = ' ' || c = '\t' || c = '\n' || c = '\r' || c = '\x0b' || c = '\x0c'

/-- ASCII fragment of Python `str.isalnum` applied to one character. -/
def pyIsAlnum (c : Char) : Bool :=
  c.isAlphanum

/-- ASCII fragment of Python `str.lower` applied to one character. -/
def pyLower (c : Char) : Char :=
  if h : 65 ≤ c.toNat ∧ c.toNat ≤ 90 then
    Char.ofNatAux (c.toNat + 32) (Or.inl (by omega))
  else c

/-- Python `str.strip()` on a character list: drop whitespace from both ends. -/
def pyStripList (l : List Char) : List Char :=
  ((l.dropWhile pyIsSpace).reverse.dropWhile pyIsSpace).reverse

/-- Python `str.strip()`. -/
def pyStrip (s : String) : String :=
  ⟨pyStripList s.data⟩

namespace Repository

/-- Embedding of `repository.normalize`: keep alphanumeric and whitespace
characters, lowercase them, and strip both ends
(`''.join(e.lower() for e in text if e.isalnum() or e.isspace()).strip()`). -/
def normalize (text : String) : String :=
  ⟨pyStripList ((text.data.filter fun e => pyIsAlnum e || pyIsSpace e).map pyLower)⟩

end Repository

/-- Helper for `pySplit`: accumulate the current word (reversed) while
scanning. -/
def wordsAux : List Char → List Char → List (List Char)
  | [], acc => if acc.isEmpty then [] else [acc.reverse]
  | c :: cs, acc =>
    if pyIsSpace c then
      if acc.isEmpty then wordsAux cs [] else acc.reverse :: wordsAux cs []
    else wordsAux cs (c :: acc)

/-- Python `str.split()` with no argument: split on whitespace runs,
dropping empty words. -/
def pySplit (s : String) : List String :=
  (wordsAux s.data []).map fun l => ⟨l⟩

/-- Python `str.lower` on a whole string. -/
def pyLowerStr (s : String) : String :=
  ⟨s.data.map pyLower⟩

/-- Lexicographic comparison of character lists by code point, the order
Python uses to compare strings. -/
def listLexLe : List Char → List Char → Bool
  | [], _ => true
  | _ :: _, [] => false
  | a :: as, b :: bs =>
    if a.toNat = b.toNat then listLexLe as bs else decide (a.toNat < b.toNat)

/-- Python string comparison `a <= b` (lexicographic by code point). -/
def pyStrLe (a b : String) : Bool :=
  listLexLe a.data b.data

/-- Association list with Python dict semantics: lookup the first binding. -/
def alookup {β : Type} (k : String) : List (String × β) → Option β
  | [] => none
  | (k1, v) :: rest => if k1 = k then some v else alookup k rest

/-- Python dict `d[k] = v`: overwrite the binding in place if the key is
present, append a fresh binding otherwise. -/
def aset {β : Type} (k : String) (v : β) : List (String × β) → List (String × β)
  | [] => [(k, v)]
  | (k1, v1) :: rest => if k1 = k then (k, v) :: rest else (k1, v1) :: aset k v rest

/-- Python dict `del d[k]`: remove the binding of `k`. -/
def aerase {β : Type} (k : String) : List (String × β) → List (String × β)
  | [] => []
  | (k1, v1) :: rest => if k1 = k then rest else (k1, v1) :: aerase k rest

/-- Keys of an association list, in order. -/
def akeys {β : Type} (l : List (String × β)) : List String :=
  l.map Prod.fst

theorem alookup_eq_none {β : Type} (k : String) (l : List (String × β)) :
    alookup k l = none ↔ k ∉ akeys l := by
  induction l with
  | nil => simp [alookup, akeys]
  | cons p rest ih =>
    obtain ⟨k1, v⟩ := p
    by_cases h : k1 = k
    · subst h
      simp [alookup, akeys]
    · simp [alookup, akeys, h, ih, Ne.symm h]

theorem alookup_isSome {β : Type} (k : String) (l : List (String × β)) :
    (alookup k l).isSome = true ↔ k ∈ akeys l := by
  rw [Option.isSome_iff_ne_none]
  constructor
  · intro h
    by_contra hk
    exact h ((alookup_eq_none k l).mpr hk)
  · intro h hn
    exact ((alookup_eq_none k l).mp hn) h

theorem alookup_some_mem {β : Type} {k : String} {l : List (String × β)} {v : β}
    (h : alookup k l = some v) : (k, v) ∈ l := by
  induction l with
  | nil => simp [alookup] at h
  | cons p rest ih =>
    obtain ⟨k1, v1⟩ := p
    by_cases hk : k1 = k
    · subst hk
      simp [alookup] at h
      simp [h]
    · simp [alookup, hk] at h
      simp [ih h]

theorem mem_alookup_of_nodup {β : Type} {k : String} {l : List (String × β)} {v : β}
    (hnd : (akeys l).Nodup) (h : (k, v) ∈ l) : alookup k l = some v := by
  induction l with
  | nil => simp at h
  | cons p rest ih =>
    obtain ⟨k1, v1⟩ := p
    simp only [akeys, List.map_cons, List.nodup_cons] at hnd
    obtain ⟨hk1, hnd2⟩ := hnd
    rcases List.mem_cons.mp h with h1 | h1
    · simp only [Prod.mk.injEq] at h1
      obtain ⟨rfl, rfl⟩ := h1
      simp [alookup]
    · have hne : k1 ≠ k := by
        intro he
        subst he
        exact hk1 (List.mem_map_of_mem Prod.fst h1)
      simp [alookup, hne, ih hnd2 h1]

theorem alookup_aset_self {β : Type} (k : String) (v : β) (l : List (String × β)) :
    alookup k (aset k v l) = some v := by
  induction l with
  | nil => simp [aset, alookup]
  | cons p rest ih =>
    obtain ⟨k1, v1⟩ := p
    by_cases h : k1 = k
    · simp [aset, h, alookup]
    · simp [aset, h, alookup, ih]

theorem alookup_aset_ne {β : Type} {k k2 : String} (h : k2 ≠ k) (v : β)
    (l : List (String × β)) : alookup k (aset k2 v l) = alookup k l := by
  induction l with
  | nil => simp [aset, alookup, h]
  | cons p rest ih =>
    obtain ⟨k1, v1⟩ := p
    by_cases h1 : k1 = k2
    · subst h1
      simp [aset, alookup, h]
    · simp [aset, h1, alookup, ih]

theorem mem_aset {β : Type} {p : String × β} {k : String} {v : β}
    {l : List (String × β)} (h : p ∈ aset k v l) : p = (k, v) ∨ p ∈ l := by
  induction l with
  | nil => simpa [aset] using h
  | cons q rest ih =>
    obtain ⟨k1, v1⟩ := q
    by_cases h1 : k1 = k
    · simp [aset, h1] at h
      rcases h with h | h
      · left; simp [h]
      · right; simp [h]
    · simp [aset, h1] at h
      rcases h with h | h
      · right; simp [h]
      · rcases ih h with h2 | h2
        · left; exact h2
        · right; simp [h2]

theorem akeys_aset {β : Type} (k : String) (v : β) (l : List (String × β)) :
    akeys (aset k v l) = if k ∈ akeys l then akeys l else akeys l ++ [k] := by
  induction l with
  | nil => simp [aset, akeys]
  | cons p rest ih =>
    obtain ⟨k1, v1⟩ := p
    simp only [akeys, List.map_cons] at ih ⊢
    by_cases h : k1 = k
    · subst h
      simp [aset]
    · rw [show aset k v ((k1, v1) :: rest) = (k1, v1) :: aset k v rest from by
        simp [aset, h]]
      simp only [List.map_cons, ih]
      by_cases h2 : k ∈ List.map Prod.fst rest
      · simp [h2, List.mem_cons, Ne.symm h]
      · simp [h2, List.mem_cons, Ne.symm h]

theorem nodup_akeys_aset {β : Type} (k : String) (v : β) {l : List (String × β)}
    (h : (akeys l).Nodup) : (akeys (aset k v l)).Nodup := by
  rw [akeys_aset]
  by_cases h2 : k ∈ akeys l
  · simpa [h2]
  · simp [h2, List.nodup_append, h]

theorem aerase_sublist {β : Type} (k : String) (l : List (String × β)) :
    (aerase k l).Sublist l := by
  induction l with
  | nil => simp [aerase]
  | cons p rest ih =>
    obtain ⟨k1, v1⟩ := p
    by_cases h : k1 = k
    · rw [show aerase k ((k1, v1) :: rest) = rest from by simp [aerase, h]]
      exact List.sublist_cons_self _ _
    · rw [show aerase k ((k1, v1) :: rest) = (k1, v1) :: aerase k rest from by
        simp [aerase, h]]
      exact ih.cons₂ _

theorem nodup_akeys_aerase {β : Type} (k : String) {l : List (String × β)}
    (h : (akeys l).Nodup) : (akeys (aerase k l)).Nodup :=
  ((aerase_sublist k l).map Prod.fst).nodup h

theorem alookup_aerase_ne {β : Type} {k k2 : String} (h : k2 ≠ k)
    (l : List (String × β)) : alookup k (aerase k2 l) = alookup k l := by
  induction l with
  | nil => simp [aerase]
  | cons p rest ih =>
    obtain ⟨k1, v1⟩ := p
    by_cases h1 : k1 = k2
    · subst h1
      simp [aerase, alookup, h]
    · simp [aerase, h1, alookup, ih]

theorem alookup_aerase_self {β : Type} (k : String) {l : List (String × β)}
    (hnd : (akeys l).Nodup) : alookup k (aerase k l) = none := by
  induction l with
  | nil => simp [aerase, alookup]
  | cons p rest ih =>
    obtain ⟨k1, v1⟩ := p
    simp only [akeys, List.map_cons, List.nodup_cons] at hnd
    obtain ⟨hk1, hnd2⟩ := hnd
    by_cases h : k1 = k
    · subst h
      rw [show aerase k1 ((k1, v1) :: rest) = rest from by simp [aerase]]
      rw [alookup_eq_none]
      intro hmem
      exact hk1 (by simpa [akeys] using hmem)
    · rw [show aerase k ((k1, v1) :: rest) = (k1, v1) :: aerase k rest from by
        simp [aerase, h]]
      simp [alookup, h, ih hnd2]

theorem alookup_append_of_isSome {β : Type} {k : String} {l1 : List (String × β)}
    (l2 : List (String × β)) (h : (alookup k l1).isSome = true) :
    alookup k (l1 ++ l2) = alookup k l1 := by
  induction l1 with
  | nil => simp [alookup] at h
  | cons p rest ih =>
    obtain ⟨k1, v1⟩ := p
    by_cases h1 : k1 = k
    · simp [alookup, h1]
    · simp [alookup, h1] at h ⊢
      exact ih h

theorem listLexLe_total : ∀ a b, listLexLe a b = true ∨ listLexLe b a = true := by
  intro a
  induction a with
  | nil => intro b; left; rfl
  | cons x xs ih =>
    intro b
    cases b with
    | nil => right; rfl
    | cons y ys =>
      by_cases h : x.toNat = y.toNat
      · rcases ih ys with h2 | h2
        · left; simp [listLexLe, h, h2]
        · right; simp [listLexLe, h.symm, h2]
      · by_cases h3 : x.toNat < y.toNat
        · left; simp [listLexLe, h, h3]
        · right
          have h4 : y.toNat < x.toNat := by omega
          have h5 : ¬ y.toNat = x.toNat := by omega
          simp [listLexLe, h5, h4]

theorem listLexLe_trans :
    ∀ a b c, listLexLe a b = true → listLexLe b c = true → listLexLe a c = true := by
  intro a
  induction a with
  | nil => intro b c _ _; rfl
  | cons x xs ih =>
    intro b c hab hbc
    cases b with
    | nil => simp [listLexLe] at hab
    | cons y ys =>
      cases c with
      | nil => simp [listLexLe] at hbc
      | cons z zs =>
        simp only [listLexLe] at hab hbc ⊢
        by_cases hxy : x.toNat = y.toNat <;> by_cases hyz : y.toNat = z.toNat
        · rw [if_pos hxy] at hab
          rw [if_pos hyz] at hbc
          rw [if_pos (hxy.trans hyz)]
          exact ih ys zs hab hbc
        · rw [if_pos hxy] at hab
          rw [if_neg hyz, decide_eq_true_eq] at hbc
          rw [if_neg (by omega), decide_eq_true_eq]
          omega
        · rw [if_neg hxy, decide_eq_true_eq] at hab
          rw [if_pos hyz] at hbc
          rw [if_neg (by omega), decide_eq_true_eq]
          omega
        · rw [if_neg hxy, decide_eq_true_eq] at hab
          rw [if_neg hyz, decide_eq_true_eq] at hbc
          rw [if_neg (by omega), decide_eq_true_eq]
          omega

theorem pyStrLe_total (a b : String) : pyStrLe a b = true ∨ pyStrLe b a = true :=
  listLexLe_total a.data b.data

theorem pyStrLe_trans {a b c : String} (h1 : pyStrLe a b = true)
    (h2 : pyStrLe b c = true) : pyStrLe a c = true :=
  listLexLe_trans a.data b.data c.data h1 h2

namespace Repository

/-- Embedding of the pydantic model `repository.NewsItem`.  The float-valued
probability map is embedded with rational values (its values are never
inspected by the verified operations). -/
structure NewsItem where
  link : String
  title : String
  source : String
  published : Option String := none
  region : Option String := none
  summary : Option String := none
  topic : String
  status : Option String := none
  fetched_at : Option String := none
  sentiment : Option String := none
  probabilities : Option (List (String × Rat)) := none
deriving DecidableEq, Repr

/-- The title-keyed store (the loaded `news_db.json` dict). -/
abbrev Db := List (String × NewsItem)

/-- Embedding of `repository.classify_news_status`.  `parse` stands for
`datetime.fromisoformat` composed with the UTC normalisation of the source
(both `pub_dt` and `now` are reduced to UTC instants, embedded as integer
seconds); `parse publ = none` models a raised parse exception, handled by
the `except` clause.  `publ` is falsy in Python when it is `None` or the
empty string. -/
def classify_news_status (parse : String → Option Int) :
    Option String → Int → String
  | none, _ => "old"
  | some p, now =>
    if p = "" then "old"
    else
      match parse p with
      | none => "old"
      | some pub_dt =>
        if now - pub_dt ≤ 30 * 60 then "fresh"
        else if now - pub_dt ≤ 6 * 60 * 60 then "new"
        else "old"

/-- Freshness tiers exactly as the specification words them: no timestamp
means `old`; at most 30 minutes old means `fresh`; more than 30 minutes and
at most 6 hours means `new`; anything else means `old`.  This definition
follows the spec text and is compared with `classify_news_status`, which is
translated from the code. -/
def freshness_spec : Option Int → Int → String
  | none, _ => "old"
  | some p, now =>
    if now - p ≤ 30 * 60 then "fresh"
    else if 30 * 60 < now - p ∧ now - p ≤ 6 * 60 * 60 then "new"
    else "old"

/-- A raw article dict handed to `add_news_batch`; `item.get(key)` returns
`None` for a missing key, embedded as `none`. -/
structure RawRecord where
  title : Option String := none
  link : Option String := none
  source : String
  published : Option String := none
  region : Option String := none
  summary : Option String := none
deriving DecidableEq, Repr

/-- One iteration of the loop body of `repository.add_news_batch`: skip the
record when title or link is missing or empty, otherwise insert it under its
normalized title unless that key is already present (the `seen_titles` set
of the source is exactly the current key set of the store). -/
def add_news_step (parse : String → Option Int) (topic : String) (now : Int)
    (now_iso : String) (db : Db) (item : RawRecord) : Db :=
  match item.title, item.link with
  | some title, some link =>
    if title = "" || link = "" then db
    else
      let norm_title := normalize (pyStrip title)
      let status := classify_news_status parse item.published now
      if (alookup norm_title db).isSome then db
      else
        db ++ [(norm_title,
          { link := link, title := title, source := item.source,
            published := item.published, region := item.region,
            summary := item.summary, topic := topic, status := some status,
            fetched_at := some now_iso, sentiment := none,
            probabilities := none })]
  | _, _ => db

/-- Embedding of `repository.add_news_batch` (the unused `start_ts` argument
of the source is kept). -/
def add_news_batch (parse : String → Option Int) (news_list : List RawRecord)
    (topic : String) (start_ts : Int) (now : Int) (now_iso : String)
    (db : Db) : Db :=
  news_list.foldl (add_news_step parse topic now now_iso) db

/-- Sort key used by `get_news_by_topic`: `n.published or ""`. -/
def newsKey (n : NewsItem) : String :=
  n.published.getD ""

/-- In-place status update `n.status = new_status` of the source. -/
def with_status (n : NewsItem) (st : String) : NewsItem :=
  { n with status := some st }

/-- The recompute loop of `get_news_by_topic`: the topic's records with
their status recomputed at the current instant (the source mutates the
fetched `all_items` in place; this is their state after the loop). -/
def recompute_all (parse : String → Option Int) (db : Db) (topic : String)
    (now : Int) : List NewsItem :=
  ((db.map Prod.snd).filter fun n => decide (n.topic = topic)).map fun n =>
    with_status n (classify_news_status parse n.published now)

/-- The `updated` flag of `get_news_by_topic`: some record of the topic had
a stale status (`n.status != new_status` in the source). -/
def status_changed (parse : String → Option Int) (db : Db) (topic : String)
    (now : Int) : Bool :=
  ((db.map Prod.snd).filter fun n => decide (n.topic = topic)).any fun n =>
    decide (n.status ≠ some (classify_news_status parse n.published now))

/-- The write-back of `get_news_by_topic`: when some status changed, every
recomputed record of the topic is stored back under its normalized title
and the store is saved; otherwise the store is left as loaded. -/
def persist_statuses (parse : String → Option Int) (db : Db) (topic : String)
    (now : Int) : Db :=
  if status_changed parse db topic now then
    (recompute_all parse db topic now).foldl
      (fun d n => aset (normalize n.title) n d) db
  else db

/-- Embedding of `repository.get_news_by_topic`: recompute the status of
every record of the topic at the current instant, write the records back
(and save) when any status changed, then filter by status (a falsy filter,
`None` or `""`, filters nothing) and sort by `published or ""` descending.
Returns the served list together with the persisted store. -/
def get_news_by_topic (parse : String → Option Int) (db : Db) (topic : String)
    (status_filter : Option String) (now : Int) : List NewsItem × Db :=
  let new_items := recompute_all parse db topic now
  let filtered := match status_filter with
    | none => new_items
    | some f =>
      if f = "" then new_items
      else new_items.filter fun n => decide (n.status = some f)
  (List.insertionSort (fun a b => pyStrLe (newsKey b) (newsKey a) = true) filtered,
   persist_statuses parse db topic now)

/-- Embedding of `repository.mark_read`: scan the store for a record with
the given link; on a hit, save the (unmodified) store and return `True`;
return `False` when no record matches.  The post-state of the store is
returned alongside the boolean. -/
def mark_read : Db → String → Bool × Db
  | [], _ => (false, [])
  | (k, item) :: rest, link =>
    if item.link = link then (true, (k, item) :: rest)
    else
      let r := mark_read rest link
      (r.1, (k, item) :: r.2)

end Repository

namespace Tracker

/-- Memory cap per topic (`_MAX_ITEMS_PER_TOPIC = 500`). -/
def MAX_ITEMS_PER_TOPIC : Nat := 500

/-- Permutation count of a MinHash signature (`_NUM_PERM = 128`). -/
def NUM_PERM : Nat := 128

/-- A near-duplicate signature.  The `datasketch` MinHash is a deterministic
function of the token sequence fed to it, so the embedding records the token
sequence itself; the LSH query over signatures is abstracted by the
`LshQuery` parameter below. -/
abbrev Sig := List String

/-- Behaviour of `MinHashLSH.query` made abstract: given the current indexed
`(id, signature)` pairs and a probe signature, decide whether the probe is
reported as a near duplicate.  Theorems quantify over every such behaviour. -/
abbrev LshQuery := List (Nat × Sig) → Sig → Bool

/-- Configuration of a `GoogleNewsFeed` (constructed by `add_topic`). -/
structure GoogleNewsFeed where
  topic : String
  max_items : Nat
  verify : Bool
  region : String
deriving DecidableEq, Repr

/-- A feed source bound to a topic (`BaseFeed`); the Gdelt variant is
commented out in `add_topic`, so only the Google variant is constructed. -/
inductive BaseFeed
  | google : GoogleNewsFeed → BaseFeed
deriving DecidableEq, Repr

/-- A raw article dict returned by `feed.fetch()`; only these keys are read
by `update_topic`. -/
structure RawItem where
  link : Option String := none
  title : Option String := none
  summary : Option String := none
  published : Option String := none
deriving DecidableEq, Repr

/-- An article as stored in `all_news` / `last_fetched`: the fetched dict
with the `_id` key added under the lock. -/
structure TrackedItem where
  link : Option String
  title : Option String
  summary : Option String
  published : Option String
  id : Nat
deriving DecidableEq, Repr

/-- Embedding of the `NewsTracker` state: the per-topic maps of `__init__`
(each a Python dict keyed by topic name) plus the shared id counter.  The
mutex only serialises mutation and is not part of the state. -/
structure NewsTracker where
  feeds : List (String × List BaseFeed)
  all_news : List (String × List TrackedItem)
  seen_links : List (String × List String)
  last_fetched : List (String × List TrackedItem)
  last_updated : Option Int
  lsh_index : List (String × List (Nat × Sig))
  minhashes : List (String × List (Nat × Sig))
  next_id : Nat
deriving DecidableEq, Repr

/-- The freshly constructed tracker (`NewsTracker.__init__`). -/
def NewsTracker.init : NewsTracker :=
  { feeds := [], all_news := [], seen_links := [], last_fetched := [],
    last_updated := none, lsh_index := [], minhashes := [], next_id := 0 }

/-- Embedding of `NewsTracker.add_topic`: a no-op when the topic is already
registered, otherwise bind a fresh Google feed and create the empty
per-topic structures. -/
def add_topic (s : NewsTracker) (topic : String) (max_items : Nat)
    (verify : Bool) (region : String) : NewsTracker :=
  if (alookup topic s.feeds).isSome then s
  else
    let google_feed : BaseFeed :=
      .google { topic := topic, max_items := max_items, verify := verify,
                region := region }
    { s with
      feeds := aset topic [google_feed] s.feeds,
      all_news := aset topic [] s.all_news,
      seen_links := aset topic [] s.seen_links,
      last_fetched := aset topic [] s.last_fetched,
      lsh_index := aset topic [] s.lsh_index,
      minhashes := aset topic [] s.minhashes }

/-- Embedding of `NewsTracker._build_minhash`: lowercase, whitespace-split,
keep the first 64 tokens (the resulting token sequence determines the
MinHash). -/
def build_minhash (text : String) : Sig :=
  if text = "" then [] else (pySplit (pyLowerStr text)).take 64

/-- The per-topic mutable state threaded through one sweep of
`update_topic`: LSH index, signature map, seen links, article list, the
`fresh` accumulator and the shared id counter. -/
structure SweepCtx where
  lsh : List (Nat × Sig)
  mh : List (Nat × Sig)
  seen : List String
  news : List TrackedItem
  fresh : List TrackedItem
  nid : Nat
deriving DecidableEq, Repr

/-- One iteration of the per-item loop of `update_topic`: skip on a falsy
link, skip on an exact link duplicate, skip when the LSH index reports a
near duplicate; otherwise insert the signature, assign the next id, mark the
link seen and append the item. -/
def sweep_item (q : LshQuery) (c : SweepCtx) (item : RawItem) : SweepCtx :=
  match item.link with
  | none => c
  | some link =>
    if link = "" then c
    else if link ∈ c.seen then c
    else
      let text := pyStrip (item.title.getD "" ++ " " ++ item.summary.getD "")
      let m := build_minhash text
      if q c.lsh m then c
      else
        let stored : TrackedItem :=
          { link := item.link, title := item.title, summary := item.summary,
            published := item.published, id := c.nid }
        { lsh := c.lsh ++ [(c.nid, m)],
          mh := c.mh ++ [(c.nid, m)],
          seen := link :: c.seen,
          news := c.news ++ [stored],
          fresh := c.fresh ++ [stored],
          nid := c.nid + 1 }

/-- Sort key of the final per-topic sorts: `x.get("published") or ""`. -/
def itemKey (x : TrackedItem) : String :=
  x.published.getD ""

/-- Python `list.sort(key=..., reverse=True)`: a stable sort putting the
keys in descending order. -/
def sortPublishedDesc (l : List TrackedItem) : List TrackedItem :=
  List.insertionSort (fun a b => pyStrLe (itemKey b) (itemKey a) = true) l

/-- Embedding of `NewsTracker._prune_topic_memory` applied to a list. -/
def prune_list (lst : List TrackedItem) : List TrackedItem :=
  if lst.length > MAX_ITEMS_PER_TOPIC then lst.take MAX_ITEMS_PER_TOPIC else lst

/-- The incorporation loop of `update_topic`: starting from the topic's
current per-topic state and the shared id counter, fold every fetched batch
(in completion order) item by item through `sweep_item`. -/
def run_sweep (q : LshQuery) (s : NewsTracker) (topic : String)
    (batches : List (List RawItem)) : SweepCtx :=
  batches.foldl (fun acc batch => batch.foldl (sweep_item q) acc)
    { lsh := (alookup topic s.lsh_index).getD [],
      mh := (alookup topic s.minhashes).getD [],
      seen := (alookup topic s.seen_links).getD [],
      news := (alookup topic s.all_news).getD [],
      fresh := [],
      nid := s.next_id }

/-- Embedding of `NewsTracker.update_topic`.  The network fan-out is
abstracted by `batches`, the per-feed result lists in completion order (a
feed whose fetch raised contributes nothing, i.e. an empty batch); the
incorporation loop itself runs on the consuming thread, one item at a time,
exactly as folded in `run_sweep`.  `q` abstracts the LSH query.  After the
loop: sort the article list and the fresh list by published descending,
prune the article list to the cap, record the top `limit` fresh items as
`last_fetched` and return them. -/
def update_topic (q : LshQuery) (s : NewsTracker) (topic : String)
    (batches : List (List RawItem)) (limit : Nat) :
    NewsTracker × List TrackedItem :=
  match alookup topic s.feeds with
  | none => (s, [])
  | some feeds =>
    if feeds.isEmpty then (s, [])
    else
      let c := run_sweep q s topic batches
      ({ s with
          all_news := aset topic (prune_list (sortPublishedDesc c.news)) s.all_news,
          seen_links := aset topic c.seen s.seen_links,
          last_fetched := aset topic ((sortPublishedDesc c.fresh).take limit)
            s.last_fetched,
          lsh_index := aset topic c.lsh s.lsh_index,
          minhashes := aset topic c.mh s.minhashes,
          next_id := c.nid },
        (sortPublishedDesc c.fresh).take limit)

/-- Embedding of `NewsTracker.update_all`: run `update_topic` (with its
default `limit = 10`) for every registered topic and stamp `last_updated`.
The per-topic sweeps run on a bounded pool, but each topic's state is
touched by exactly one sweep, so the parallel run is linearised as a fold
over the topic list; `data` supplies each topic's fetched batches. -/
def update_all (q : LshQuery) (s : NewsTracker)
    (data : String → List (List RawItem)) (now : Int) : NewsTracker :=
  let s2 := (akeys s.feeds).foldl (fun st t => (update_topic q st t (data t) 10).1) s
  { s2 with last_updated := some now }

/-- Embedding of `NewsTracker.get_all_news`. -/
def get_all_news (s : NewsTracker) (topic : String) : List TrackedItem :=
  (alookup topic s.all_news).getD []

/-- Embedding of `NewsTracker.get_last_news`. -/
def get_last_news (s : NewsTracker) (topic : String) : List TrackedItem :=
  (alookup topic s.last_fetched).getD []

/-- Convenience accessor for a topic's seen-link set. -/
def seenOf (s : NewsTracker) (topic : String) : List String :=
  (alookup topic s.seen_links).getD []

end Tracker

namespace Api

open Tracker

/-- Embedding of the `DELETE /remove-topic` handler of `news/api/main.py`:
404 when the topic is unknown; otherwise delete the topic from `feeds`,
`all_news`, `seen_links` and `last_fetched` (and only those maps). -/
def remove_topic (s : NewsTracker) (topic : String) : Except Nat NewsTracker :=
  if (alookup topic s.feeds).isSome then
    .ok { s with
      feeds := aerase topic s.feeds,
      all_news := aerase topic s.all_news,
      seen_links := aerase topic s.seen_links,
      last_fetched := aerase topic s.last_fetched }
  else
    .error 404

end Api

namespace Tracker

/-- States of the tracker reachable from construction through topic
registration, topic removal and fetch sweeps, for arbitrary fetch results
and arbitrary LSH behaviour. -/
inductive Reachable : NewsTracker → Prop
  | init : Reachable NewsTracker.init
  | add (s : NewsTracker) (topic : String) (max_items : Nat) (verify : Bool)
      (region : String) : Reachable s →
      Reachable (add_topic s topic max_items verify region)
  | remove (s s2 : NewsTracker) (topic : String) : Reachable s →
      Api.remove_topic s topic = .ok s2 → Reachable s2
  | update (q : LshQuery) (s : NewsTracker) (topic : String)
      (batches : List (List RawItem)) (limit : Nat) : Reachable s →
      Reachable (update_topic q s topic batches limit).1
  | updateAll (q : LshQuery) (s : NewsTracker)
      (data : String → List (List RawItem)) (now : Int) : Reachable s →
      Reachable (update_all q s data now)

end Tracker

namespace Repository

/-- Sample parser used to instantiate parse-parametric theorems: recognises
the single string "p" as instant 0. -/
def parseSample : String → Option Int :=
  fun s => if s = "p" then some 0 else none

/-- Parser that fails on every input, modelling `datetime.fromisoformat`
raising on every malformed string. -/
def parseNone : String → Option Int :=
  fun _ => none

theorem classify_news_status_some (parse : String → Option Int) (p : String)
    (now : Int) :
    classify_news_status parse (some p) now =
      (if p = "" then "old"
       else
         match parse p with
         | none => "old"
         | some pub_dt =>
           if now - pub_dt ≤ 30 * 60 then "fresh"
           else if now - pub_dt ≤ 6 * 60 * 60 then "new"
           else "old") := rfl

/-- C2: for every optional published timestamp and every instant `now`, the
freshness classifier agrees with the spec tiers: absent timestamp gives
`old`; `now - p ≤ 30` minutes gives `fresh`; `30` minutes `< now - p ≤ 6`
hours gives `new`; anything else gives `old`.  Stated as agreement of the
code-translated classifier with the spec-side tier function, for every
behaviour of the timestamp parser. -/
theorem classify_news_status_matches_spec (parse : String → Option Int)
    (now : Int) :
    classify_news_status parse none now = freshness_spec none now ∧
    ∀ p t, p ≠ "" → parse p = some t →
      classify_news_status parse (some p) now = freshness_spec (some t) now := by
  constructor
  · rfl
  · intro p t hp hparse
    rw [classify_news_status_some, if_neg hp, hparse,
      show (match some t with
            | none => "old"
            | some pub_dt =>
              if now - pub_dt ≤ 30 * 60 then "fresh"
              else if now - pub_dt ≤ 6 * 60 * 60 then "new"
              else "old") =
          (if now - t ≤ 30 * 60 then "fresh"
           else if now - t ≤ 6 * 60 * 60 then "new"
           else "old") from rfl,
      show freshness_spec (some t) now =
        (if now - t ≤ 30 * 60 then "fresh"
         else if 30 * 60 < now - t ∧ now - t ≤ 6 * 60 * 60 then "new"
         else "old") from rfl]
    by_cases h1 : now - t ≤ 30 * 60
    · rw [if_pos h1, if_pos h1]
    · rw [if_neg h1, if_neg h1]
      by_cases h2 : now - t ≤ 6 * 60 * 60
      · rw [if_pos h2, if_pos ⟨by omega, h2⟩]
      · rw [if_neg h2, if_neg fun hc => h2 hc.2]

/-- Witness for C2 at a concrete parser, timestamp and instant. -/
theorem classify_news_status_matches_spec_witness :
    classify_news_status parseSample (some "p") 2000 =
      freshness_spec (some 0) 2000 :=
  (classify_news_status_matches_spec parseSample 2000).2 "p" 0 (by decide) rfl

/-- C9: a present but malformed published string (one the ISO-8601 parser
rejects) classifies as `old`; the `except` clause of the source makes this
total, so no exception escapes. -/
theorem classify_news_status_malformed_old (parse : String → Option Int)
    (p : String) (now : Int) (hp : p ≠ "") (h : parse p = none) :
    classify_news_status parse (some p) now = "old" := by
  rw [classify_news_status_some, if_neg hp, h]

/-- Witness for C9 at a concrete malformed string. -/
theorem classify_news_status_malformed_old_witness :
    classify_news_status parseNone (some "not a date") 0 = "old" :=
  classify_news_status_malformed_old parseNone "not a date" 0 (by decide) rfl

theorem add_news_step_preserves (parse : String → Option Int) (topic : String)
    (now : Int) (now_iso : String) (db : Db) (it : RawRecord) {k : String}
    (h : (alookup k db).isSome = true) :
    alookup k (add_news_step parse topic now now_iso db it) = alookup k db := by
  obtain ⟨title, link, src, pub, reg, summ⟩ := it
  cases title with
  | none => rfl
  | some t =>
    cases link with
    | none => rfl
    | some l =>
      unfold add_news_step
      simp only
      by_cases h1 : t = "" || l = ""
      · rw [if_pos h1]
      · rw [if_neg h1]
        by_cases h2 : (alookup (normalize (pyStrip t)) db).isSome = true
        · rw [if_pos h2]
        · rw [if_neg h2]
          exact alookup_append_of_isSome _ h

/-- C5: a record whose normalized title is already a key of the store leaves
that key's stored record unchanged (existing key wins) and is itself not
stored, whatever its link or topic; stated as: every key present before the
batch maps to the same record after the batch. -/
theorem add_news_batch_existing_key_wins (parse : String → Option Int)
    (news_list : List RawRecord) (topic : String) (start_ts now : Int)
    (now_iso : String) (db : Db) (k : String)
    (h : (alookup k db).isSome = true) :
    alookup k (add_news_batch parse news_list topic start_ts now now_iso db) =
      alookup k db := by
  unfold add_news_batch
  induction news_list generalizing db with
  | nil => rfl
  | cons it rest ih =>
    rw [List.foldl_cons]
    have hstep := add_news_step_preserves parse topic now now_iso db it h
    have h2 : (alookup k (add_news_step parse topic now now_iso db it)).isSome = true := by
      rw [hstep]; exact h
    rw [ih _ h2, hstep]

/-- Store and record used in the C5 witness: the stored record and the
incoming record share the normalized title but differ in link and topic. -/
def dbSample : Db :=
  [("existing title", { link := "l1", title := "Existing Title", source := "s1",
                        topic := "t1" })]

/-- Incoming record colliding with the key of `dbSample`. -/
def recSample : RawRecord :=
  { title := some "Existing  Title!", link := some "l2", source := "s2" }

/-- Witness for C5: the colliding incoming record with a different link does
not change what is stored under the existing key. -/
theorem add_news_batch_existing_key_wins_witness :
    alookup "existing title"
        (add_news_batch parseNone [recSample] "t2" 0 0 "now" dbSample) =
      alookup "existing title" dbSample :=
  add_news_batch_existing_key_wins parseNone [recSample] "t2" 0 0 "now" dbSample
    "existing title" (by decide)

/-- C10: `mark_read` returns `True` exactly when some stored record has the
given link, and it changes no record of the store at all, despite its
name. -/
theorem mark_read_pure_membership (db : Db) (link : String) :
    (mark_read db link).2 = db ∧
    ((mark_read db link).1 = true ↔ ∃ p ∈ db, p.2.link = link) := by
  induction db with
  | nil => simp [mark_read]
  | cons p rest ih =>
    obtain ⟨k, item⟩ := p
    by_cases h : item.link = link
    · refine ⟨by simp [mark_read, h], ?_⟩
      simp only [mark_read, if_pos h]
      simp [h]
    · simp only [mark_read, if_neg h]
      refine ⟨by simp [ih.1], ?_⟩
      rw [ih.2]
      simp [h]

end Repository

namespace Tracker

/-- C7: registering an already-registered topic name is a no-op: a second
`add_topic` call with the same name (and any arguments) returns the state
of the first call unchanged, so feed bindings, article list, seen-link set,
last-fetched batch, near-duplicate index and signature map are all exactly
as before. -/
theorem add_topic_idempotent (s : NewsTracker) (topic : String)
    (m1 : Nat) (v1 : Bool) (r1 : String) (m2 : Nat) (v2 : Bool) (r2 : String) :
    add_topic (add_topic s topic m1 v1 r1) topic m2 v2 r2 =
      add_topic s topic m1 v1 r1 := by
  by_cases h : (alookup topic s.feeds).isSome
  · simp [add_topic, h]
  · simp [add_topic, h, alookup_aset_self]

/-- Tracker state with the single registered topic "a", used by concrete
instantiations below. -/
def sampleTracker : NewsTracker :=
  add_topic NewsTracker.init "a" 20 false "US"

end Tracker

namespace Api

open Tracker

/-- C1 counterexample: removing a registered topic succeeds but leaves the
topic's entries in `lsh_index` and `minhashes` in place, so after removal
two per-topic maps still hold an entry for the removed name, contradicting
the claim that no per-topic map retains one. -/
theorem remove_topic_leaves_index_cex :
    (remove_topic sampleTracker "a").isOk = true ∧
    alookup "a" ((remove_topic sampleTracker "a").toOption.getD
      NewsTracker.init).lsh_index ≠ none ∧
    alookup "a" ((remove_topic sampleTracker "a").toOption.getD
      NewsTracker.init).minhashes ≠ none := by
  decide

/-- C1 amended: for a registered topic, removal succeeds and deletes the
topic's entries from `feeds`, `all_news`, `seen_links` and `last_fetched`,
while the per-topic maps `lsh_index` and `minhashes` are left completely
unchanged. -/
theorem remove_topic_amended (s : NewsTracker) (topic : String)
    (s2 : NewsTracker) (hnf : (akeys s.feeds).Nodup)
    (hna : (akeys s.all_news).Nodup) (hns : (akeys s.seen_links).Nodup)
    (hnl : (akeys s.last_fetched).Nodup)
    (h : remove_topic s topic = .ok s2) :
    alookup topic s2.feeds = none ∧ alookup topic s2.all_news = none ∧
    alookup topic s2.seen_links = none ∧ alookup topic s2.last_fetched = none ∧
    s2.lsh_index = s.lsh_index ∧ s2.minhashes = s.minhashes := by
  unfold remove_topic at h
  by_cases hc : (alookup topic s.feeds).isSome
  · simp only [hc, if_pos] at h
    obtain rfl := (Except.ok.injEq .. ▸ h : _ = s2).symm
    refine ⟨alookup_aerase_self topic hnf, alookup_aerase_self topic hna,
      alookup_aerase_self topic hns, alookup_aerase_self topic hnl, rfl, rfl⟩
  · simp [hc] at h

/-- Witness for the amended C1 on the concrete one-topic tracker. -/
theorem remove_topic_amended_witness :
    alookup "a" (((remove_topic sampleTracker "a").toOption.getD
      NewsTracker.init).feeds) = none ∧
    alookup "a" (((remove_topic sampleTracker "a").toOption.getD
      NewsTracker.init).all_news) = none ∧
    alookup "a" (((remove_topic sampleTracker "a").toOption.getD
      NewsTracker.init).seen_links) = none ∧
    alookup "a" (((remove_topic sampleTracker "a").toOption.getD
      NewsTracker.init).last_fetched) = none ∧
    ((remove_topic sampleTracker "a").toOption.getD
      NewsTracker.init).lsh_index = sampleTracker.lsh_index ∧
    ((remove_topic sampleTracker "a").toOption.getD
      NewsTracker.init).minhashes = sampleTracker.minhashes :=
  remove_topic_amended sampleTracker "a" _ (by decide) (by decide) (by decide)
    (by decide) rfl

end Api

theorem toNat_pyLower_upper (c : Char) (h : 65 ≤ c.toNat ∧ c.toNat ≤ 90) :
    (pyLower c).toNat = c.toNat + 32 := by
  unfold pyLower
  rw [dif_pos h]
  rfl

theorem uint32_le_iff (a b : UInt32) : a ≤ b ↔ a.toNat ≤ b.toNat := by
  simp [UInt32.le_def, BitVec.le_def, UInt32.toNat]

theorem isUpper_iff (c : Char) :
    c.isUpper = true ↔ 65 ≤ c.toNat ∧ c.toNat ≤ 90 := by
  simp only [Char.isUpper, Bool.and_eq_true, decide_eq_true_eq, ge_iff_le,
    uint32_le_iff]
  rw [show ((65 : UInt32)).toNat = 65 from rfl,
    show ((90 : UInt32)).toNat = 90 from rfl]
  rfl

theorem isLower_iff (c : Char) :
    c.isLower = true ↔ 97 ≤ c.toNat ∧ c.toNat ≤ 122 := by
  simp only [Char.isLower, Bool.and_eq_true, decide_eq_true_eq, ge_iff_le,
    uint32_le_iff]
  rw [show ((97 : UInt32)).toNat = 97 from rfl,
    show ((122 : UInt32)).toNat = 122 from rfl]
  rfl

theorem isDigit_iff (c : Char) :
    c.isDigit = true ↔ 48 ≤ c.toNat ∧ c.toNat ≤ 57 := by
  simp only [Char.isDigit, Bool.and_eq_true, decide_eq_true_eq, ge_iff_le,
    uint32_le_iff]
  rw [show ((48 : UInt32)).toNat = 48 from rfl,
    show ((57 : UInt32)).toNat = 57 from rfl]
  rfl

theorem isAlphanum_iff (c : Char) :
    c.isAlphanum = true ↔
      (65 ≤ c.toNat ∧ c.toNat ≤ 90) ∨ (97 ≤ c.toNat ∧ c.toNat ≤ 122) ∨
      (48 ≤ c.toNat ∧ c.toNat ≤ 57) := by
  simp [Char.isAlphanum, Char.isAlpha, isUpper_iff, isLower_iff, isDigit_iff,
    or_assoc]

theorem pyLower_class (c : Char) (h : (pyIsAlnum c || pyIsSpace c) = true) :
    (pyIsAlnum (pyLower c) || pyIsSpace (pyLower c)) = true ∧
      (pyLower c).isUpper = false := by
  by_cases hu : 65 ≤ c.toNat ∧ c.toNat ≤ 90
  · have ht := toNat_pyLower_upper c hu
    constructor
    · have h2 : pyIsAlnum (pyLower c) = true := by
        unfold pyIsAlnum
        rw [isAlphanum_iff]
        omega
      simp [h2]
    · rw [← Bool.not_eq_true, isUpper_iff]
      omega
  · have he : pyLower c = c := by
      unfold pyLower
      rw [dif_neg hu]
    rw [he]
    refine ⟨h, ?_⟩
    rw [← Bool.not_eq_true, isUpper_iff]
    omega

theorem dropWhileSub {α : Type} (p : α → Bool) (l : List α) :
    (l.dropWhile p).Sublist l := by
  induction l with
  | nil => simp
  | cons x xs ih =>
    rw [List.dropWhile_cons]
    by_cases hp : p x = true
    · simp only [hp, if_pos]
      exact ih.trans (List.sublist_cons_self x xs)
    · simp [hp]

theorem head?_dropWhile {α : Type} (p : α → Bool) (l : List α) {c : α}
    (h : (l.dropWhile p).head? = some c) : p c = false := by
  induction l with
  | nil => simp [List.dropWhile] at h
  | cons x xs ih =>
    rw [List.dropWhile_cons] at h
    by_cases hp : p x = true
    · rw [if_pos hp] at h
      exact ih h
    · rw [if_neg hp] at h
      simp at h
      subst h
      exact Bool.not_eq_true _ |>.mp hp

theorem getLast?_dropWhile {α : Type} (p : α → Bool) (l : List α)
    (h : l.dropWhile p ≠ []) : (l.dropWhile p).getLast? = l.getLast? := by
  induction l with
  | nil => simp [List.dropWhile] at h
  | cons x xs ih =>
    rw [List.dropWhile_cons]
    by_cases hp : p x = true
    · rw [List.dropWhile_cons, if_pos hp] at h
      rw [if_pos hp, ih h]
      cases xs with
      | nil => simp [List.dropWhile] at h
      | cons y ys => rw [List.getLast?_cons_cons]
    · rw [if_neg hp]

theorem pyStripList_sublist (l : List Char) : (pyStripList l).Sublist l := by
  unfold pyStripList
  have h1 : ((l.dropWhile pyIsSpace).reverse.dropWhile pyIsSpace).Sublist
      (l.dropWhile pyIsSpace).reverse := dropWhileSub _ _
  have h2 := h1.reverse
  simp only [List.reverse_reverse] at h2
  exact h2.trans (dropWhileSub _ _)

theorem pyStripList_head {l : List Char} {c : Char}
    (h : (pyStripList l).head? = some c) : pyIsSpace c = false := by
  unfold pyStripList at h
  rw [List.head?_reverse] at h
  have hne : (l.dropWhile pyIsSpace).reverse.dropWhile pyIsSpace ≠ [] := by
    intro he
    rw [he] at h
    simp at h
  rw [getLast?_dropWhile _ _ hne, List.getLast?_reverse] at h
  exact head?_dropWhile _ _ h

theorem pyStripList_last {l : List Char} {c : Char}
    (h : (pyStripList l).getLast? = some c) : pyIsSpace c = false := by
  unfold pyStripList at h
  rw [List.getLast?_reverse] at h
  exact head?_dropWhile _ _ h

namespace Repository

/-- C8 counterexample: `normalize` keeps every whitespace character, not
only the space: on input `"a\tb"` the result still contains a tab, which is
neither an alphanumeric character nor the space character, so the claimed
characterisation of the result alphabet fails. -/
theorem normalize_keeps_tab_cex :
    '\t' ∈ (normalize "a\tb").data ∧
      ¬('\t'.isAlphanum = true ∨ '\t' = ' ') := by
  decide

/-- C8 amended: `normalize` lowercases and keeps exactly the alphanumeric
and whitespace characters and trims whitespace from both ends, so every
character of the result is alphanumeric or whitespace (not necessarily the
space character), no character of the result is uppercase, and the result
neither starts nor ends with whitespace. -/
theorem normalize_amended_spec (s : String) :
    (∀ c ∈ (normalize s).data,
        (pyIsAlnum c || pyIsSpace c) = true ∧ c.isUpper = false) ∧
    ∀ c, ((normalize s).data.head? = some c → pyIsSpace c = false) ∧
      ((normalize s).data.getLast? = some c → pyIsSpace c = false) := by
  have hdata : (normalize s).data =
      pyStripList ((s.data.filter fun e => pyIsAlnum e || pyIsSpace e).map pyLower) :=
    rfl
  constructor
  · intro c hc
    rw [hdata] at hc
    have hc2 : c ∈ (s.data.filter fun e => pyIsAlnum e || pyIsSpace e).map pyLower :=
      (pyStripList_sublist _).subset hc
    obtain ⟨c0, hc0, rfl⟩ := List.mem_map.mp hc2
    exact pyLower_class c0 (List.mem_filter.mp hc0).2
  · intro c
    refine ⟨fun h => ?_, fun h => ?_⟩
    · rw [hdata] at h
      exact pyStripList_head h
    · rw [hdata] at h
      exact pyStripList_last h

/-- Witness for the amended C8 on a concrete string. -/
theorem normalize_amended_spec_witness :
    (pyIsAlnum 'a' || pyIsSpace 'a') = true ∧ 'a'.isUpper = false :=
  (normalize_amended_spec " Ab ").1 'a' (by decide)

end Repository


namespace Tracker

/-- Per-topic coupling between the article list and the seen-link set:
stored links are pairwise distinct, and every stored item carries a link
that is in the seen set. -/
def LinksOk (news : List TrackedItem) (seen : List String) : Prop :=
  news.Pairwise (fun a b => a.link ≠ b.link) ∧
  ∀ x ∈ news, ∃ l, x.link = some l ∧ l ∈ seen

theorem linksOk_nil (seen : List String) : LinksOk [] seen :=
  ⟨List.Pairwise.nil, by simp⟩

/-- Text fed to the per-item MinHash: title and summary joined and
stripped. -/
def sweepText (t su : Option String) : String :=
  pyStrip (t.getD "" ++ " " ++ su.getD "")

/-- The stored article dict after the id assignment. -/
def mkStored (link : String) (t su p : Option String) (nid : Nat) : TrackedItem :=
  { link := some link, title := t, summary := su, published := p, id := nid }

theorem sweep_item_none (q : LshQuery) (c : SweepCtx) (t su p : Option String) :
    sweep_item q c { link := none, title := t, summary := su, published := p } = c :=
  rfl

theorem sweep_item_some (q : LshQuery) (c : SweepCtx) (link : String)
    (t su p : Option String) :
    sweep_item q c { link := some link, title := t, summary := su, published := p } =
      (if link = "" then c
       else if link ∈ c.seen then c
       else if q c.lsh (build_minhash (sweepText t su)) then c
       else
         { lsh := c.lsh ++ [(c.nid, build_minhash (sweepText t su))],
           mh := c.mh ++ [(c.nid, build_minhash (sweepText t su))],
           seen := link :: c.seen,
           news := c.news ++ [mkStored link t su p c.nid],
           fresh := c.fresh ++ [mkStored link t su p c.nid],
           nid := c.nid + 1 }) :=
  rfl

theorem sweep_item_linksOk (q : LshQuery) (c : SweepCtx) (item : RawItem)
    (h : LinksOk c.news c.seen) :
    LinksOk (sweep_item q c item).news (sweep_item q c item).seen := by
  obtain ⟨ilink, ititle, isummary, ipub⟩ := item
  cases ilink with
  | none => rw [sweep_item_none]; exact h
  | some link =>
    rw [sweep_item_some]
    by_cases h1 : link = ""
    · rw [if_pos h1]
      exact h
    · rw [if_neg h1]
      by_cases h2 : link ∈ c.seen
      · rw [if_pos h2]
        exact h
      · rw [if_neg h2]
        by_cases h3 : q c.lsh (build_minhash (sweepText ititle isummary)) = true
        · rw [if_pos h3]
          exact h
        · rw [if_neg h3]
          constructor
          · show (c.news ++ [mkStored link ititle isummary ipub c.nid]).Pairwise
              fun a b => a.link ≠ b.link
            rw [List.pairwise_append]
            refine ⟨h.1, List.pairwise_singleton _ _, ?_⟩
            intro a ha b hb
            simp only [List.mem_singleton] at hb
            subst hb
            obtain ⟨la, hla, hmem⟩ := h.2 a ha
            intro heq
            rw [hla, show (mkStored link ititle isummary ipub c.nid).link =
              some link from rfl, Option.some.injEq] at heq
            subst heq
            exact h2 hmem
          · intro x hx
            rcases List.mem_append.mp hx with hx | hx
            · obtain ⟨la, hla, hm⟩ := h.2 x hx
              exact ⟨la, hla, List.mem_cons_of_mem _ hm⟩
            · simp only [List.mem_singleton] at hx
              subst hx
              exact ⟨link, rfl, List.mem_cons_self _ _⟩

theorem foldl_sweep_batch_linksOk (q : LshQuery) (batch : List RawItem) :
    ∀ c : SweepCtx, LinksOk c.news c.seen →
      LinksOk (batch.foldl (sweep_item q) c).news
        (batch.foldl (sweep_item q) c).seen := by
  induction batch with
  | nil => intro c h; exact h
  | cons it rest ih =>
    intro c h
    rw [List.foldl_cons]
    exact ih _ (sweep_item_linksOk q c it h)

theorem run_sweep_linksOk (q : LshQuery) (s : NewsTracker) (topic : String)
    (batches : List (List RawItem))
    (h : LinksOk (get_all_news s topic) (seenOf s topic)) :
    LinksOk (run_sweep q s topic batches).news
      (run_sweep q s topic batches).seen := by
  unfold run_sweep
  have hgen : ∀ (bs : List (List RawItem)) (c : SweepCtx),
      LinksOk c.news c.seen →
      LinksOk (bs.foldl (fun acc batch => batch.foldl (sweep_item q) acc) c).news
        (bs.foldl (fun acc batch => batch.foldl (sweep_item q) acc) c).seen := by
    intro bs
    induction bs with
    | nil => intro c h2; exact h2
    | cons b rest ih =>
      intro c h2
      rw [List.foldl_cons]
      exact ih _ (foldl_sweep_batch_linksOk q b c h2)
  exact hgen batches _ h

theorem sortPublishedDesc_perm (l : List TrackedItem) :
    (sortPublishedDesc l).Perm l :=
  List.perm_insertionSort _ l

theorem prune_list_sublist (l : List TrackedItem) :
    (prune_list l).Sublist l := by
  unfold prune_list
  by_cases h : l.length > MAX_ITEMS_PER_TOPIC
  · rw [if_pos h]
    exact List.take_sublist _ _
  · rw [if_neg h]

theorem prune_list_length (l : List TrackedItem) :
    (prune_list l).length ≤ MAX_ITEMS_PER_TOPIC := by
  unfold prune_list
  by_cases h : l.length > MAX_ITEMS_PER_TOPIC
  · rw [if_pos h]
    simp [List.length_take]
  · rw [if_neg h]
    omega

theorem linksOk_prune_sort (news : List TrackedItem) (seen : List String)
    (h : LinksOk news seen) :
    LinksOk (prune_list (sortPublishedDesc news)) seen := by
  obtain ⟨hpw, hmem⟩ := h
  have hperm := sortPublishedDesc_perm news
  have hpw2 : (sortPublishedDesc news).Pairwise (fun a b => a.link ≠ b.link) :=
    (hperm.pairwise_iff fun hab => Ne.symm hab).mpr hpw
  refine ⟨hpw2.sublist (prune_list_sublist _), ?_⟩
  intro x hx
  exact hmem x (hperm.subset ((prune_list_sublist _).subset hx))

/-- Invariant carried through every reachable tracker state: topic keys of
the article and seen-link maps are unduplicated, every article list is
within the memory cap, and every topic's links are distinct and seen. -/
structure TInv (s : NewsTracker) : Prop where
  nodup_news : (akeys s.all_news).Nodup
  nodup_seen : (akeys s.seen_links).Nodup
  cap : ∀ p ∈ s.all_news, p.2.length ≤ MAX_ITEMS_PER_TOPIC
  links : ∀ t, LinksOk (get_all_news s t) (seenOf s t)

theorem tinv_init : TInv NewsTracker.init := by
  refine ⟨by simp [NewsTracker.init, akeys], by simp [NewsTracker.init, akeys],
    by simp [NewsTracker.init], ?_⟩
  intro t
  exact linksOk_nil []

theorem tinv_add (s : NewsTracker) (topic : String) (m : Nat) (v : Bool)
    (r : String) (h : TInv s) : TInv (add_topic s topic m v r) := by
  unfold add_topic
  split
  · exact h
  · refine ⟨?_, ?_, ?_, ?_⟩
    · exact nodup_akeys_aset _ _ h.nodup_news
    · exact nodup_akeys_aset _ _ h.nodup_seen
    · intro p hp
      have hp2 : p ∈ aset topic ([] : List TrackedItem) s.all_news := hp
      rcases mem_aset hp2 with h2 | h2
      · subst h2
        simp
      · exact h.cap p h2
    · intro t
      by_cases ht : t = topic
      · subst ht
        show LinksOk ((alookup t (aset t ([] : List TrackedItem) s.all_news)).getD [])
          ((alookup t (aset t ([] : List String) s.seen_links)).getD [])
        rw [alookup_aset_self, alookup_aset_self]
        exact linksOk_nil []
      · show LinksOk
          ((alookup t (aset topic ([] : List TrackedItem) s.all_news)).getD [])
          ((alookup t (aset topic ([] : List String) s.seen_links)).getD [])
        rw [alookup_aset_ne (fun he2 => ht he2.symm),
          alookup_aset_ne (fun he2 => ht he2.symm)]
        exact h.links t

theorem tinv_remove (s s2 : NewsTracker) (topic : String) (h : TInv s)
    (hr : Api.remove_topic s topic = .ok s2) : TInv s2 := by
  unfold Api.remove_topic at hr
  by_cases hc : (alookup topic s.feeds).isSome = true
  · rw [if_pos hc] at hr
    obtain rfl := (Except.ok.injEq .. ▸ hr : _ = s2).symm
    refine ⟨nodup_akeys_aerase _ h.nodup_news, nodup_akeys_aerase _ h.nodup_seen,
      ?_, ?_⟩
    · intro p hp
      have hp2 : p ∈ aerase topic s.all_news := hp
      exact h.cap p ((aerase_sublist topic s.all_news).subset hp2)
    · intro t
      by_cases ht : t = topic
      · subst ht
        show LinksOk ((alookup t (aerase t s.all_news)).getD [])
          ((alookup t (aerase t s.seen_links)).getD [])
        rw [alookup_aerase_self t h.nodup_news,
          alookup_aerase_self t h.nodup_seen]
        exact linksOk_nil []
      · show LinksOk ((alookup t (aerase topic s.all_news)).getD [])
          ((alookup t (aerase topic s.seen_links)).getD [])
        rw [alookup_aerase_ne (fun he2 => ht he2.symm),
          alookup_aerase_ne (fun he2 => ht he2.symm)]
        exact h.links t
  · rw [if_neg hc] at hr
    exact absurd hr (by simp)

theorem tinv_update (q : LshQuery) (s : NewsTracker) (topic : String)
    (batches : List (List RawItem)) (limit : Nat) (h : TInv s) :
    TInv (update_topic q s topic batches limit).1 := by
  unfold update_topic
  split
  · exact h
  · split
    · exact h
    · refine ⟨?_, ?_, ?_, ?_⟩
      · exact nodup_akeys_aset _ _ h.nodup_news
      · exact nodup_akeys_aset _ _ h.nodup_seen
      · intro p hp
        have hp2 : p ∈ aset topic
            (prune_list (sortPublishedDesc (run_sweep q s topic batches).news))
            s.all_news := hp
        rcases mem_aset hp2 with h2 | h2
        · subst h2
          exact prune_list_length _
        · exact h.cap p h2
      · intro t
        by_cases ht : t = topic
        · subst ht
          show LinksOk ((alookup t (aset t
              (prune_list (sortPublishedDesc (run_sweep q s t batches).news))
              s.all_news)).getD [])
            ((alookup t (aset t (run_sweep q s t batches).seen s.seen_links)).getD [])
          rw [alookup_aset_self, alookup_aset_self]
          exact linksOk_prune_sort _ _ (run_sweep_linksOk q s t batches (h.links t))
        · show LinksOk ((alookup t (aset topic
              (prune_list (sortPublishedDesc (run_sweep q s topic batches).news))
              s.all_news)).getD [])
            ((alookup t (aset topic (run_sweep q s topic batches).seen
              s.seen_links)).getD [])
          rw [alookup_aset_ne (fun he2 => ht he2.symm),
            alookup_aset_ne (fun he2 => ht he2.symm)]
          exact h.links t

theorem tinv_update_all (q : LshQuery) (s : NewsTracker)
    (data : String → List (List RawItem)) (now : Int) (h : TInv s) :
    TInv (update_all q s data now) := by
  unfold update_all
  have hgen : ∀ (ts : List String) (st : NewsTracker), TInv st →
      TInv (ts.foldl (fun st2 t => (update_topic q st2 t (data t) 10).1) st) := by
    intro ts
    induction ts with
    | nil => intro st h2; exact h2
    | cons t rest ih =>
      intro st h2
      rw [List.foldl_cons]
      exact ih _ (tinv_update q st t (data t) 10 h2)
  have h2 := hgen (akeys s.feeds) s h
  exact ⟨h2.nodup_news, h2.nodup_seen, h2.cap, h2.links⟩

theorem reachable_tinv {s : NewsTracker} (h : Reachable s) : TInv s := by
  induction h with
  | init => exact tinv_init
  | add s topic m v r _ ih => exact tinv_add s topic m v r ih
  | remove s s2 topic _ hr ih => exact tinv_remove s s2 topic ih hr
  | update q s topic batches limit _ ih => exact tinv_update q s topic batches limit ih
  | updateAll q s data now _ ih => exact tinv_update_all q s data now ih

/-- C3: in every tracker state reachable by any finite sequence of topic
registrations, removals and sweeps (`update_topic` / `update_all` with
arbitrary fetch results and arbitrary LSH behaviour), every topic's
known-article list as returned by `get_all_news` has length at most the
500-item memory cap. -/
theorem get_all_news_length_le_cap (s : NewsTracker) (t : String)
    (h : Reachable s) : (get_all_news s t).length ≤ MAX_ITEMS_PER_TOPIC := by
  have hi := reachable_tinv h
  unfold get_all_news
  cases hl : alookup t s.all_news with
  | none => simp
  | some l => simpa using hi.cap (t, l) (alookup_some_mem hl)

/-- Witness for C3 at the freshly constructed tracker. -/
theorem get_all_news_length_le_cap_witness :
    (get_all_news NewsTracker.init "Oil Markets").length ≤ MAX_ITEMS_PER_TOPIC :=
  get_all_news_length_le_cap NewsTracker.init "Oil Markets" Reachable.init

/-- C4: during `update_topic` a raw article is skipped, leaving the whole
per-topic sweep state (article list and fresh batch included) unchanged,
whenever its link is missing or already in the topic's evolving seen-link
set; consequently, in every reachable tracker state every topic's article
list has pairwise distinct links, so an article fetched twice with the same
link is stored at most once. -/
theorem update_topic_link_dedup :
    (∀ (q : LshQuery) (c : SweepCtx) (item : RawItem),
        (item.link = none ∨ ∃ l, item.link = some l ∧ l ∈ c.seen) →
        sweep_item q c item = c) ∧
    ∀ (s : NewsTracker) (t : String), Reachable s →
      (get_all_news s t).Pairwise fun a b => a.link ≠ b.link := by
  constructor
  · intro q c item h
    obtain ⟨ilink, ititle, isummary, ipub⟩ := item
    rcases h with hnone | ⟨l, hl, hmem⟩
    · simp only at hnone
      subst hnone
      exact sweep_item_none q c ititle isummary ipub
    · simp only at hl
      subst hl
      rw [sweep_item_some]
      by_cases h1 : l = ""
      · rw [if_pos h1]
      · rw [if_neg h1, if_pos hmem]
  · intro s t h
    exact ((reachable_tinv h).links t).1

/-- Query function reporting no near duplicates, used for concrete
instantiations. -/
def qNone : LshQuery := fun _ _ => false

/-- Empty sweep state for concrete instantiations. -/
def emptyCtx : SweepCtx :=
  { lsh := [], mh := [], seen := [], news := [], fresh := [], nid := 0 }

/-- A fetched item with no link key. -/
def noLinkItem : RawItem :=
  { link := none, title := none, summary := none, published := none }

/-- Witness for C4: a linkless item is skipped in the empty context, and the
initial state has duplicate-free links for any topic. -/
theorem update_topic_link_dedup_witness :
    sweep_item qNone emptyCtx noLinkItem = emptyCtx ∧
    (get_all_news NewsTracker.init "a").Pairwise (fun a b => a.link ≠ b.link) :=
  ⟨update_topic_link_dedup.1 qNone emptyCtx noLinkItem (Or.inl rfl),
   update_topic_link_dedup.2 NewsTracker.init "a" Reachable.init⟩

end Tracker

namespace Repository

theorem with_status_eq_self {n : NewsItem} {st : String}
    (h : n.status = some st) : with_status n st = n := by
  unfold with_status
  cases n with
  | mk l t src pub reg summ top st0 f sen prob =>
    simp only at h
    rw [h]

theorem mem_recompute_all {parse : String → Option Int} {db : Db}
    {topic : String} {now : Int} {n : NewsItem} :
    n ∈ recompute_all parse db topic now ↔
      ∃ m, m ∈ db.map Prod.snd ∧ m.topic = topic ∧
        n = with_status m (classify_news_status parse m.published now) := by
  unfold recompute_all
  constructor
  · intro h
    obtain ⟨m, hm, rfl⟩ := List.mem_map.mp h
    have hf := List.mem_filter.mp hm
    exact ⟨m, hf.1, of_decide_eq_true hf.2, rfl⟩
  · rintro ⟨m, hm, htop, rfl⟩
    exact List.mem_map_of_mem _ (List.mem_filter.mpr ⟨hm, decide_eq_true htop⟩)

theorem foldl_aset_lookup_of_no_key (k : String) :
    ∀ (items : List NewsItem) (db : Db),
      (∀ n ∈ items, normalize n.title ≠ k) →
      alookup k (items.foldl (fun d n => aset (normalize n.title) n d) db) =
        alookup k db := by
  intro items
  induction items with
  | nil => intro db _; rfl
  | cons n rest ih =>
    intro db h
    rw [List.foldl_cons, ih _ (fun m hm => h m (List.mem_cons_of_mem _ hm)),
      alookup_aset_ne (h n (List.mem_cons_self _ _))]

theorem foldl_aset_lookup_of_unique (k : String) (v : NewsItem) :
    ∀ (items : List NewsItem) (db : Db),
      (∀ n ∈ items, normalize n.title = k → n = v) →
      (∃ n ∈ items, normalize n.title = k) →
      alookup k (items.foldl (fun d n => aset (normalize n.title) n d) db) =
        some v := by
  intro items
  induction items with
  | nil =>
    intro db _ hex
    obtain ⟨n, hn, _⟩ := hex
    simp at hn
  | cons n rest ih =>
    intro db hall hex
    rw [List.foldl_cons]
    by_cases hk : ∃ m ∈ rest, normalize m.title = k
    · exact ih _ (fun m hm h2 => hall m (List.mem_cons_of_mem _ hm) h2) hk
    · obtain ⟨n0, hn0, hkey0⟩ := hex
      rcases List.mem_cons.mp hn0 with rfl | hmem
      · rw [foldl_aset_lookup_of_no_key k rest _
          fun m hm heq => hk ⟨m, hm, heq⟩]
        rw [hkey0, alookup_aset_self,
          hall n0 (List.mem_cons_self _ _) hkey0]
      · exact absurd ⟨n0, hmem, hkey0⟩ hk

theorem mem_db_of_mem_values {db : Db} {m : NewsItem}
    (hkeys : ∀ p ∈ db, p.1 = normalize p.2.title)
    (hm : m ∈ db.map Prod.snd) : (normalize m.title, m) ∈ db := by
  obtain ⟨p, hp, hpe⟩ := List.mem_map.mp hm
  obtain ⟨k0, m0⟩ := p
  simp only at hpe
  subst hpe
  have h2 : k0 = normalize m0.title := hkeys (k0, m0) hp
  subst h2
  exact hp

theorem values_unique_of_nodup {db : Db} {k : String} {v m : NewsItem}
    (hnd : (akeys db).Nodup) (h1 : (k, v) ∈ db) (h2 : (k, m) ∈ db) : v = m := by
  have e1 := mem_alookup_of_nodup hnd h1
  have e2 := mem_alookup_of_nodup hnd h2
  rw [e1] at e2
  exact Option.some.inj e2

theorem status_unchanged_of_not_changed {parse : String → Option Int} {db : Db}
    {topic : String} {now : Int}
    (h : status_changed parse db topic now = false) :
    ∀ m ∈ db.map Prod.snd, m.topic = topic →
      m.status = some (classify_news_status parse m.published now) := by
  intro m hm htop
  by_contra hne
  have h2 : status_changed parse db topic now = true := by
    unfold status_changed
    rw [List.any_eq_true]
    exact ⟨m, List.mem_filter.mpr ⟨hm, decide_eq_true htop⟩, decide_eq_true hne⟩
  simp [h2] at h

theorem persist_statuses_lookup (parse : String → Option Int) (db : Db)
    (topic : String) (now : Int)
    (hkeys : ∀ p ∈ db, p.1 = normalize p.2.title)
    (hnd : (akeys db).Nodup) (k : String) :
    alookup k (persist_statuses parse db topic now) =
      (alookup k db).map fun n =>
        if n.topic = topic then
          with_status n (classify_news_status parse n.published now)
        else n := by
  unfold persist_statuses
  by_cases hu : status_changed parse db topic now = true
  · rw [if_pos hu]
    cases hl : alookup k db with
    | none =>
      have hno : ∀ n ∈ recompute_all parse db topic now,
          normalize n.title ≠ k := by
        intro n hn heq
        obtain ⟨m, hm, htop, rfl⟩ := mem_recompute_all.mp hn
        have heq2 : normalize m.title = k := heq
        have hmem := mem_db_of_mem_values hkeys hm
        rw [heq2] at hmem
        rw [mem_alookup_of_nodup hnd hmem] at hl
        cases hl
      rw [foldl_aset_lookup_of_no_key k _ db hno, hl]
      rfl
    | some v =>
      have hv := alookup_some_mem hl
      have hkv : k = normalize v.title := hkeys (k, v) hv
      by_cases htop : v.topic = topic
      · have hall : ∀ n ∈ recompute_all parse db topic now,
            normalize n.title = k →
            n = with_status v (classify_news_status parse v.published now) := by
          intro n hn heq
          obtain ⟨m, hm, htopm, rfl⟩ := mem_recompute_all.mp hn
          have heq2 : normalize m.title = k := heq
          have hmem := mem_db_of_mem_values hkeys hm
          rw [heq2] at hmem
          have he := values_unique_of_nodup hnd hv hmem
          rw [← he]
        have hex : ∃ n ∈ recompute_all parse db topic now,
            normalize n.title = k := by
          refine ⟨with_status v (classify_news_status parse v.published now),
            mem_recompute_all.mpr
              ⟨v, List.mem_map_of_mem Prod.snd hv, htop, rfl⟩, ?_⟩
          exact hkv.symm
        rw [foldl_aset_lookup_of_unique k _ _ db hall hex]
        simp [htop]
      · have hno : ∀ n ∈ recompute_all parse db topic now,
            normalize n.title ≠ k := by
          intro n hn heq
          obtain ⟨m, hm, htopm, rfl⟩ := mem_recompute_all.mp hn
          have heq2 : normalize m.title = k := heq
          have hmem := mem_db_of_mem_values hkeys hm
          rw [heq2] at hmem
          have he := values_unique_of_nodup hnd hv hmem
          rw [← he] at htopm
          exact htop htopm
        rw [foldl_aset_lookup_of_no_key k _ db hno, hl]
        simp [htop]
  · rw [if_neg hu]
    have hu2 : status_changed parse db topic now = false := by
      revert hu
      cases status_changed parse db topic now <;> simp
    cases hl : alookup k db with
    | none => rfl
    | some v =>
      have hv := alookup_some_mem hl
      by_cases htop : v.topic = topic
      · have hs := status_unchanged_of_not_changed hu2 v
          (List.mem_map_of_mem Prod.snd hv) htop
        simp [htop, with_status_eq_self hs]
      · simp [htop]

end Repository

namespace Repository

instance : IsTotal NewsItem fun a b => pyStrLe (newsKey b) (newsKey a) = true :=
  ⟨fun a b => pyStrLe_total (newsKey b) (newsKey a)⟩

instance : IsTrans NewsItem fun a b => pyStrLe (newsKey b) (newsKey a) = true :=
  ⟨fun _ _ _ hab hbc => pyStrLe_trans hbc hab⟩

/-- C6: for every topic and optional status filter, `get_news_by_topic`
first recomputes every matching record's status at the current instant and
persists the result (pointwise: under each key the stored record is the
recomputed one for matching records and unchanged otherwise), then applies
the status filter, and returns the matching records sorted by published
descending: every served record has the freshly recomputed status, a
non-falsy filter is honoured, the output is sorted descending by the
`published or ""` key, and every matching record passing the filter is
served. -/
theorem get_news_by_topic_spec (parse : String → Option Int) (db : Db)
    (topic : String) (status_filter : Option String) (now : Int)
    (hkeys : ∀ p ∈ db, p.1 = normalize p.2.title)
    (hnd : (akeys db).Nodup) :
    (∀ k, alookup k (get_news_by_topic parse db topic status_filter now).2 =
        (alookup k db).map fun n =>
          if n.topic = topic then
            with_status n (classify_news_status parse n.published now)
          else n) ∧
    (∀ n ∈ (get_news_by_topic parse db topic status_filter now).1,
        n.topic = topic ∧
        n.status = some (classify_news_status parse n.published now)) ∧
    (∀ f, status_filter = some f → f ≠ "" →
        ∀ n ∈ (get_news_by_topic parse db topic status_filter now).1,
          n.status = some f) ∧
    (get_news_by_topic parse db topic status_filter now).1.Sorted
      (fun a b => pyStrLe (newsKey b) (newsKey a) = true) ∧
    (∀ m, m ∈ db.map Prod.snd → m.topic = topic →
        (∀ f, status_filter = some f → f ≠ "" →
          classify_news_status parse m.published now = f) →
        with_status m (classify_news_status parse m.published now) ∈
          (get_news_by_topic parse db topic status_filter now).1) := by
  refine ⟨fun k => persist_statuses_lookup parse db topic now hkeys hnd k,
    ?_, ?_, ?_, ?_⟩
  · intro n hn
    have hn2 : n ∈ recompute_all parse db topic now := by
      cases status_filter with
      | none =>
        have hn3 : n ∈ List.insertionSort
            (fun a b => pyStrLe (newsKey b) (newsKey a) = true)
            (recompute_all parse db topic now) := hn
        exact (List.perm_insertionSort _ _).mem_iff.mp hn3
      | some f =>
        by_cases hf : f = ""
        · subst hf
          have hn3 : n ∈ List.insertionSort
              (fun a b => pyStrLe (newsKey b) (newsKey a) = true)
              (recompute_all parse db topic now) := hn
          exact (List.perm_insertionSort _ _).mem_iff.mp hn3
        · have hn3 : n ∈ List.insertionSort
              (fun a b => pyStrLe (newsKey b) (newsKey a) = true)
              (if f = "" then recompute_all parse db topic now
               else (recompute_all parse db topic now).filter fun n2 =>
                 decide (n2.status = some f)) := hn
          rw [if_neg hf] at hn3
          exact (List.mem_filter.mp
            ((List.perm_insertionSort _ _).mem_iff.mp hn3)).1
    obtain ⟨m, hm, htop, rfl⟩ := mem_recompute_all.mp hn2
    exact ⟨htop, rfl⟩
  · intro f hf hfne n hn
    subst hf
    have hn3 : n ∈ List.insertionSort
        (fun a b => pyStrLe (newsKey b) (newsKey a) = true)
        (if f = "" then recompute_all parse db topic now
         else (recompute_all parse db topic now).filter fun n2 =>
           decide (n2.status = some f)) := hn
    rw [if_neg hfne] at hn3
    exact of_decide_eq_true (List.mem_filter.mp
      ((List.perm_insertionSort _ _).mem_iff.mp hn3)).2
  · exact List.sorted_insertionSort _ _
  · intro m hm htop hpass
    cases status_filter with
    | none =>
      show with_status m (classify_news_status parse m.published now) ∈
        List.insertionSort (fun a b => pyStrLe (newsKey b) (newsKey a) = true)
          (recompute_all parse db topic now)
      exact (List.perm_insertionSort _ _).mem_iff.mpr
        (mem_recompute_all.mpr ⟨m, hm, htop, rfl⟩)
    | some f =>
      by_cases hf : f = ""
      · subst hf
        show with_status m (classify_news_status parse m.published now) ∈
          List.insertionSort (fun a b => pyStrLe (newsKey b) (newsKey a) = true)
            (if "" = "" then recompute_all parse db topic now
             else (recompute_all parse db topic now).filter fun n2 =>
               decide (n2.status = some ""))
        rw [if_pos rfl]
        exact (List.perm_insertionSort _ _).mem_iff.mpr
          (mem_recompute_all.mpr ⟨m, hm, htop, rfl⟩)
      · show with_status m (classify_news_status parse m.published now) ∈
          List.insertionSort (fun a b => pyStrLe (newsKey b) (newsKey a) = true)
            (if f = "" then recompute_all parse db topic now
             else (recompute_all parse db topic now).filter fun n2 =>
               decide (n2.status = some f))
        rw [if_neg hf]
        refine (List.perm_insertionSort _ _).mem_iff.mpr
          (List.mem_filter.mpr ⟨mem_recompute_all.mpr ⟨m, hm, htop, rfl⟩, ?_⟩)
        have hcl := hpass f rfl hf
        exact decide_eq_true (by
          rw [show (with_status m (classify_news_status parse m.published now)).status =
            some (classify_news_status parse m.published now) from rfl, hcl])

/-- Witness for C6: the persistence component at a concrete store, key and
instant. -/
theorem get_news_by_topic_spec_witness :
    alookup "existing title" (get_news_by_topic parseNone dbSample "t1" none 0).2 =
      (alookup "existing title" dbSample).map (fun n =>
        if n.topic = "t1" then
          with_status n (classify_news_status parseNone n.published 0)
        else n) :=
  (get_news_by_topic_spec parseNone dbSample "t1" none 0 (by decide)
    (by decide)).1 "existing title"

end Repository
